import Mathlib

/-!
Verification of the natural-language specification of libzmq's UDP transport
engine (`src/udp_engine.cpp`) against a shallow embedding of its code.

Byte strings are modelled as `List Nat` with every element below 256, matching
the `unsigned char` buffers of the C code.  Text handled by the codec
(`sockaddr_to_msg`, `resolve_raw_address`) is likewise a byte list in ASCII.
The libc helpers the code calls (`atoi`, `inet_addr`, `inet_ntoa`, `sprintf
"%d"`) are modelled after their POSIX semantics.
-/

/-- Engine-wide maximum datagram size.  Modelled from the spec: the constant
`MAX_UDP_MSG` is declared in `udp_engine.hpp`, which is not part of the
provided sources; the spec only says it is a fixed engine-wide constant. -/
def MAX_UDP_MSG : Nat := 8192

/-- Decimal digit printer with explicit fuel (structural recursion, so that
concrete instances reduce by `decide`).  `natToDigitsAux fuel n` is the ASCII
decimal representation of `n`, most significant digit first, provided
`n < fuel`. -/
def natToDigitsAux (fuel n : Nat) : List Nat :=
  match fuel with
  | 0 => []
  | f + 1 => if n < 10 then [48 + n] else natToDigitsAux f (n / 10) ++ [48 + n % 10]

/-- ASCII decimal representation of `n` (the behaviour of `sprintf "%d"` and of
each octet printed by `inet_ntoa`). -/
def natToDigits (n : Nat) : List Nat := natToDigitsAux (n + 1) n

theorem natToDigitsAux_mem (fuel : Nat) : ∀ n, n < fuel →
    ∀ x ∈ natToDigitsAux fuel n, 48 ≤ x ∧ x ≤ 57 := by
  induction fuel with
  | zero => intro n h; omega
  | succ f ih =>
    intro n _ x hx
    rw [natToDigitsAux] at hx
    by_cases h10 : n < 10
    · simp [h10] at hx
      omega
    · simp [h10] at hx
      rcases hx with hx | hx
      · exact ih (n / 10) (by omega) x hx
      · omega

theorem natToDigits_mem (n : Nat) : ∀ x ∈ natToDigits n, 48 ≤ x ∧ x ≤ 57 :=
  natToDigitsAux_mem (n + 1) n (Nat.lt_succ_self n)

theorem natToDigitsAux_head (fuel : Nat) : ∀ n, n < fuel → 1 ≤ n →
    ∃ h t, natToDigitsAux fuel n = h :: t ∧ 49 ≤ h ∧ h ≤ 57 := by
  induction fuel with
  | zero => intro n h; omega
  | succ f ih =>
    intro n hn h1
    rw [natToDigitsAux]
    by_cases h10 : n < 10
    · exact ⟨48 + n, [], by simp [h10], by omega, by omega⟩
    · obtain ⟨h, t, heq, hl, hr⟩ := ih (n / 10) (by omega) (by omega)
      exact ⟨h, t ++ [48 + n % 10], by simp [h10, heq], hl, hr⟩

theorem natToDigitsAux_ne_nil (fuel n : Nat) (h : n < fuel) :
    natToDigitsAux fuel n ≠ [] := by
  match fuel with
  | f + 1 =>
    rw [natToDigitsAux]
    by_cases h10 : n < 10 <;> simp [h10]

/-- Accumulating base-`b` digit parser: the semantics of the digit loop of
`strtoul`, failing on a byte that is not a digit of the base. -/
def parseDigitsAcc (base acc : Nat) (s : List Nat) : Option Nat :=
  match s with
  | [] => some acc
  | b :: rest =>
    if 48 ≤ b ∧ b ≤ 57 ∧ b - 48 < base then parseDigitsAcc base (acc * base + (b - 48)) rest
    else if 97 ≤ b ∧ b ≤ 102 ∧ b - 87 < base then parseDigitsAcc base (acc * base + (b - 87)) rest
    else if 65 ≤ b ∧ b ≤ 70 ∧ b - 55 < base then parseDigitsAcc base (acc * base + (b - 55)) rest
    else none

theorem parseDigitsAcc_append (base : Nat) (xs : List Nat) : ∀ acc ys,
    parseDigitsAcc base acc (xs ++ ys) =
      (parseDigitsAcc base acc xs).bind (fun a => parseDigitsAcc base a ys) := by
  induction xs with
  | nil => intro acc ys; rfl
  | cons b rest ih =>
    intro acc ys
    rw [List.cons_append, parseDigitsAcc, parseDigitsAcc]
    by_cases h1 : 48 ≤ b ∧ b ≤ 57 ∧ b - 48 < base
    · simp only [h1, if_pos]; exact ih _ ys
    · by_cases h2 : 97 ≤ b ∧ b ≤ 102 ∧ b - 87 < base
      · simp only [h1, h2, if_neg, if_pos, not_false_iff]; exact ih _ ys
      · by_cases h3 : 65 ≤ b ∧ b ≤ 70 ∧ b - 55 < base
        · simp only [h1, h2, h3, if_neg, if_pos, not_false_iff]; exact ih _ ys
        · simp only [h1, h2, h3, if_neg, not_false_iff]; rfl

theorem parseDigitsAcc_natToDigitsAux (fuel : Nat) : ∀ n acc, n < fuel →
    parseDigitsAcc 10 acc (natToDigitsAux fuel n) =
      some (acc * 10 ^ (natToDigitsAux fuel n).length + n) := by
  induction fuel with
  | zero => intro n acc h; omega
  | succ f ih =>
    intro n acc _
    rw [natToDigitsAux]
    by_cases h10 : n < 10
    · rw [if_pos h10, parseDigitsAcc]
      rw [if_pos (by omega)]
      rw [parseDigitsAcc]
      have h1 : 48 + n - 48 = n := by omega
      simp [h1]
    · rw [if_neg h10]
      rw [parseDigitsAcc_append]
      rw [ih (n / 10) acc (by omega)]
      rw [Option.some_bind]
      rw [parseDigitsAcc]
      rw [if_pos (by omega)]
      rw [parseDigitsAcc]
      simp only [List.length_append, List.length_cons, List.length_nil, Nat.zero_add]
      have hds : 48 + n % 10 - 48 = n % 10 := by omega
      rw [hds]
      have hnm := Nat.div_add_mod n 10
      generalize (natToDigitsAux f (n / 10)).length = k
      rw [pow_succ]
      have hk : (acc * 10 ^ k + n / 10) * 10 + n % 10
          = acc * (10 ^ k * 10) + (10 * (n / 10) + n % 10) := by ring
      rw [hk, hnm]

theorem parseDigitsAcc_natToDigits (n : Nat) :
    parseDigitsAcc 10 0 (natToDigits n) = some n := by
  have := parseDigitsAcc_natToDigitsAux (n + 1) n 0 (Nat.lt_succ_self n)
  simpa [natToDigits] using this

/-- Accumulating decimal value of a digit string: the digit-consuming loop of
`atoi` (which never fails; non-digit bytes never reach it because the caller
takes the digit prefix first). -/
def digitsValAcc (acc : Nat) (s : List Nat) : Nat :=
  match s with
  | [] => acc
  | b :: rest => digitsValAcc (acc * 10 + (b - 48)) rest

theorem digitsValAcc_append (xs : List Nat) : ∀ acc ys,
    digitsValAcc acc (xs ++ ys) = digitsValAcc (digitsValAcc acc xs) ys := by
  induction xs with
  | nil => intro acc ys; rfl
  | cons b rest ih => intro acc ys; exact ih (acc * 10 + (b - 48)) ys

theorem digitsValAcc_natToDigitsAux (fuel : Nat) : ∀ n acc, n < fuel →
    digitsValAcc acc (natToDigitsAux fuel n) = acc * 10 ^ (natToDigitsAux fuel n).length + n := by
  induction fuel with
  | zero => intro n acc h; omega
  | succ f ih =>
    intro n acc _
    rw [natToDigitsAux]
    by_cases h10 : n < 10
    · rw [if_pos h10]
      have hr : digitsValAcc acc [48 + n] = acc * 10 + (48 + n - 48) := rfl
      rw [hr]
      have h1 : 48 + n - 48 = n := by omega
      simp [h1]
    · rw [if_neg h10]
      rw [digitsValAcc_append]
      rw [ih (n / 10) acc (by omega)]
      have hr : ∀ a : Nat, digitsValAcc a [48 + n % 10] = a * 10 + (48 + n % 10 - 48) := fun a => rfl
      rw [hr]
      simp only [List.length_append, List.length_cons, List.length_nil, Nat.zero_add]
      have hds : 48 + n % 10 - 48 = n % 10 := by omega
      rw [hds]
      have hnm := Nat.div_add_mod n 10
      generalize (natToDigitsAux f (n / 10)).length = k
      rw [pow_succ]
      have hk : (acc * 10 ^ k + n / 10) * 10 + n % 10
          = acc * (10 ^ k * 10) + (10 * (n / 10) + n % 10) := by ring
      rw [hk, hnm]

theorem digitsValAcc_natToDigits (n : Nat) : digitsValAcc 0 (natToDigits n) = n := by
  have := digitsValAcc_natToDigitsAux (n + 1) n 0 (Nat.lt_succ_self n)
  simpa [natToDigits] using this

/-- Byte predicate for ASCII decimal digits, as used by the model of `atoi`. -/
def isDigitByte (b : Nat) : Bool := decide (48 ≤ b) && decide (b ≤ 57)

/-- Byte predicate for the C locale's `isspace`, as used by the model of
`atoi` (space, tab, newline, vertical tab, form feed, carriage return). -/
def isSpaceByte (b : Nat) : Bool := (b == 32) || (decide (9 ≤ b) && decide (b ≤ 13))

theorem takeWhile_eq_self_of_all (p : Nat → Bool) (l : List Nat)
    (h : ∀ x ∈ l, p x = true) : l.takeWhile p = l := by
  induction l with
  | nil => rfl
  | cons b rest ih =>
    rw [List.takeWhile_cons]
    rw [h b (List.mem_cons_self b rest)]
    simp only [if_pos]
    rw [ih (fun x hx => h x (List.mem_cons_of_mem b hx))]

theorem dropWhile_eq_self_of_head (p : Nat → Bool) (b : Nat) (rest : List Nat)
    (h : p b = false) : (b :: rest).dropWhile p = b :: rest := by
  rw [List.dropWhile_cons]
  simp [h]

/-- Split a byte string at every dot (ASCII 46), the part decomposition used by
the model of `inet_addr`'s numbers-and-dots notation. -/
def splitDots (s : List Nat) : List (List Nat) :=
  match s with
  | [] => [[]]
  | b :: rest =>
    if b = 46 then [] :: splitDots rest
    else
      match splitDots rest with
      | p :: ps => (b :: p) :: ps
      | [] => [[b]]

/-- C numeric literal parser (the `strtoul` base-0 semantics used by
`inet_addr` on each dot-separated part): a leading `0x`/`0X` selects
hexadecimal, a leading `0` selects octal, anything else decimal; the whole
part must consist of digits of that base. -/
def parseCNum (s : List Nat) : Option Nat :=
  match s with
  | [] => none
  | b :: rest =>
    if b = 48 then
      match rest with
      | [] => some 0
      | b2 :: r2 =>
        if b2 = 120 ∨ b2 = 88 then
          if r2 = [] then none else parseDigitsAcc 16 0 r2
        else parseDigitsAcc 8 0 rest
    else parseDigitsAcc 10 0 (b :: rest)

/-- Parse every dot-separated part of an address string, failing if any part
fails: the per-part loop of `inet_addr`. -/
def parseParts (ps : List (List Nat)) : Option (List Nat) :=
  match ps with
  | [] => some []
  | p :: rest =>
    match parseCNum p, parseParts rest with
    | some v, some vs => some (v :: vs)
    | _, _ => none

/-- Model of POSIX `inet_addr` on an ASCII byte string: numbers-and-dots
notation with 1 to 4 parts and the standard per-form bounds.  The result is
the 32-bit address value with the first octet most significant (the order the
bytes sit in memory in network byte order); `4294967295` is `INADDR_NONE`,
returned for every malformed string and therefore indistinguishable from the
valid address `255.255.255.255` — exactly the conflation the C API has. -/
def inet_addr_model (s : List Nat) : Nat :=
  match parseParts (splitDots s) with
  | none => 4294967295
  | some vals =>
    match vals with
    | [a] => if a < 4294967296 then a else 4294967295
    | [a, b] => if a < 256 ∧ b < 16777216 then a * 16777216 + b else 4294967295
    | [a, b, c] =>
      if a < 256 ∧ b < 256 ∧ c < 65536 then a * 16777216 + b * 65536 + c else 4294967295
    | [a, b, c, d] =>
      if a < 256 ∧ b < 256 ∧ c < 256 ∧ d < 256 then a * 16777216 + b * 65536 + c * 256 + d
      else 4294967295
    | _ => 4294967295

/-- Model of `atoi`: skip C whitespace, then an optional sign, then the value
of the longest decimal digit prefix (0 if there is none).  The C `int`
overflow of `atoi` is undefined behaviour; this model is exact, and theorems
that rely on it restrict the numeral to the non-negative `int` range. -/
def atoiModel (s : List Nat) : Int :=
  match s.dropWhile isSpaceByte with
  | [] => 0
  | b :: rest =>
    if b = 45 then -(Int.ofNat (digitsValAcc 0 (rest.takeWhile isDigitByte)))
    else if b = 43 then Int.ofNat (digitsValAcc 0 (rest.takeWhile isDigitByte))
    else Int.ofNat (digitsValAcc 0 ((b :: rest).takeWhile isDigitByte))

/-- Index of the last colon (ASCII 58) of a byte string, if any: the backwards
delimiter scan at the top of `udp_engine_t::resolve_raw_address`. -/
def findLastColon (s : List Nat) : Option Nat :=
  match s with
  | [] => none
  | b :: rest =>
    match findLastColon rest with
    | some i => some (i + 1)
    | none => if b = 58 then some 0 else none

/-- Embedding of `udp_engine_t::sockaddr_to_msg`: renders the sender address
as the ASCII text `A.B.C.D:port` (via `inet_ntoa`, a colon, and
`sprintf "%d"` of the port), the group message synthesized in raw mode. -/
def sockaddr_to_msg (a b c d port : Nat) : List Nat :=
  natToDigits a ++ 46 :: natToDigits b ++ 46 :: natToDigits c ++ 46 :: natToDigits d
    ++ 58 :: natToDigits port

/-- Embedding of `udp_engine_t::resolve_raw_address`: scan for the last colon
(fail with no colon), parse the port substring with `atoi` truncated to
`uint16_t` (fail on port 0), parse the address substring with `inet_addr`
(fail on `INADDR_NONE`).  Returns the four address octets, first octet of the
dotted form first, and the port; `none` is the `-1`/`EINVAL` failure path. -/
def resolve_raw_address (name : List Nat) : Option ((Nat × Nat × Nat × Nat) × Nat) :=
  match findLastColon name with
  | none => none
  | some i =>
    let port : Nat := ((atoiModel (name.drop (i + 1))).emod 65536).toNat
    if port = 0 then none
    else
      let a := inet_addr_model (name.take i)
      if a = 4294967295 then none
      else some ((a / 16777216 % 256, a / 65536 % 256, a / 256 % 256, a % 256), port)

/-- Read `len` bytes of the engine's receive buffer starting at `off`.  The
buffer is a total function `Nat → Nat` because the C `in_buffer` is a fixed
`unsigned char` array whose bytes beyond the received datagram hold stale
data; the `% 256` models the `unsigned char` cell type. -/
def bufSlice (buf : Nat → Nat) (off len : Nat) : List Nat :=
  (List.range len).map (fun i => buf (off + i) % 256)

/-- Embedding of the framed-mode send path of `udp_engine_t::out_event`
(lines 347-352): one length byte `(unsigned char) group_size`, then the group
bytes, then the body bytes. -/
def encodeFramed (group body : List Nat) : List Nat :=
  (group.length % 256) :: (group ++ body)

/-- Embedding of the framed-mode receive path of `udp_engine_t::in_event`
(lines 436-449): read the first buffer byte as the group size, drop the
datagram when `nbytes - 1 < group_size` over C `int` arithmetic, otherwise
split off the group and the remaining body.  `nbytes` is the byte count
`recvfrom` returned. -/
def decodeFramed (buf : Nat → Nat) (nbytes : Nat) : Option (List Nat × List Nat) :=
  let group_size := buf 0 % 256
  if (nbytes : Int) - 1 < (group_size : Int) then none
  else some (bufSlice buf 1 group_size, bufSlice buf (1 + group_size) (nbytes - 1 - group_size))

/-- The group/body pair `udp_engine_t::in_event` computes for one datagram
before pushing: in raw mode, the sender's formatted address plus the whole
datagram at offset 0; in framed mode, the decoded envelope (or nothing, on a
truncated envelope). -/
def recvPair (raw_socket : Bool) (buf : Nat → Nat) (nbytes : Nat)
    (sender : (Nat × Nat × Nat × Nat) × Nat) : Option (List Nat × List Nat) :=
  if raw_socket then
    some (sockaddr_to_msg sender.1.1 sender.1.2.1 sender.1.2.2.1 sender.1.2.2.2 sender.2,
      bufSlice buf 0 nbytes)
  else decodeFramed buf nbytes

/-- Observable outcome of one `udp_engine_t::in_event` call, after `recvfrom`
succeeded: which pushes were attempted, which messages the session accepted,
how often `session->reset ()` and `session->flush ()` ran, and whether read
interest (`pollin`) is still set afterwards (it is set when the call starts,
since the reactor just reported readability). -/
structure InEventResult where
  groupPushAttempted : Bool
  bodyPushAttempted : Bool
  deliveredGroup : Option (List Nat)
  deliveredBody : Option (List Nat)
  resetCalls : Nat
  flushCalls : Nat
  pollinOn : Bool
  deriving Repr, DecidableEq

/-- Embedding of `udp_engine_t::in_event` (lines 425-485) from the point the
datagram is in the buffer.  `acceptGroup` and `acceptBody` script the session
double's answers to the two `push_msg` calls (`true` = accepted, `false` =
`EAGAIN`, the pipe is full).  Control flow follows the source: a truncated
framed envelope returns with nothing pushed; a rejected group push closes the
message and clears read interest; a rejected body push closes the message,
calls `session->reset ()` and clears read interest; full success flushes. -/
def in_event (raw_socket : Bool) (buf : Nat → Nat) (nbytes : Nat)
    (sender : (Nat × Nat × Nat × Nat) × Nat) (acceptGroup acceptBody : Bool) : InEventResult :=
  match recvPair raw_socket buf nbytes sender with
  | none =>
    { groupPushAttempted := false, bodyPushAttempted := false, deliveredGroup := none,
      deliveredBody := none, resetCalls := 0, flushCalls := 0, pollinOn := true }
  | some (group, body) =>
    if acceptGroup then
      if acceptBody then
        { groupPushAttempted := true, bodyPushAttempted := true, deliveredGroup := some group,
          deliveredBody := some body, resetCalls := 0, flushCalls := 1, pollinOn := true }
      else
        { groupPushAttempted := true, bodyPushAttempted := true, deliveredGroup := some group,
          deliveredBody := none, resetCalls := 1, flushCalls := 0, pollinOn := false }
    else
      { groupPushAttempted := true, bodyPushAttempted := false, deliveredGroup := none,
        deliveredBody := none, resetCalls := 0, flushCalls := 0, pollinOn := false }

/-- Observable outcome of one `udp_engine_t::out_event` call: the datagram
handed to `sendto` (if any), the raw-mode destination it was resolved to (if
any), whether write interest (`pollout`) is still set afterwards, and whether
the two pulled messages were closed. -/
structure OutEventResult where
  sentData : Option (List Nat)
  sentRawDest : Option ((Nat × Nat × Nat × Nat) × Nat)
  polloutOn : Bool
  groupClosed : Bool
  bodyClosed : Bool
  deriving Repr, DecidableEq

/-- Embedding of `udp_engine_t::out_event` (lines 315-375).  `pulled` is what
the session's queue offers: `none` when `pull_msg` reports `EAGAIN` (the
engine clears write interest and returns), otherwise the group/body message
pair (the session contract guarantees the second pull succeeds).  In raw mode
the group is parsed as a `host:port` endpoint; on failure both messages are
closed and nothing is sent, with write interest left on.  Otherwise one
datagram is sent: the bare body in raw mode, the framed envelope in framed
mode. -/
def out_event (raw_socket : Bool) (pulled : Option (List Nat × List Nat)) : OutEventResult :=
  match pulled with
  | none =>
    { sentData := none, sentRawDest := none, polloutOn := false,
      groupClosed := false, bodyClosed := false }
  | some (group_msg, body_msg) =>
    if raw_socket then
      match resolve_raw_address group_msg with
      | none =>
        { sentData := none, sentRawDest := none, polloutOn := true,
          groupClosed := true, bodyClosed := true }
      | some dest =>
        { sentData := some body_msg, sentRawDest := some dest, polloutOn := true,
          groupClosed := true, bodyClosed := true }
    else
      { sentData := some (encodeFramed group_msg body_msg), sentRawDest := none,
        polloutOn := true, groupClosed := true, bodyClosed := true }

/-- The drain loop of `udp_engine_t::restart_output` when sending is
disabled: `while (session->pull_msg (&msg) == 0) msg.close ();`.  The
session's queue is a list of group/body message pairs (its contract is to
offer messages in pairs); each iteration pops and closes. -/
def drainQueue (queue : List (List Nat × List Nat)) : List (List Nat × List Nat) :=
  match queue with
  | [] => []
  | _ :: rest => drainQueue rest

/-- Observable outcome of `udp_engine_t::restart_output`: the queue the
session is left with, every datagram handed to `sendto`, and the write
interest afterwards. -/
structure RestartOutputResult where
  queueAfter : List (List Nat × List Nat)
  sends : List (List Nat)
  polloutOn : Bool
  deriving Repr, DecidableEq

/-- Embedding of `udp_engine_t::restart_output` (lines 382-393).  With send
disabled it drains and discards everything the session offers and touches no
socket; with send enabled it sets write interest and runs `out_event` once.
`pollout` is the write-interest state on entry. -/
def restart_output (send_enabled raw_socket : Bool) (pollout : Bool)
    (queue : List (List Nat × List Nat)) : RestartOutputResult :=
  if send_enabled then
    match queue with
    | [] =>
      { queueAfter := [], sends := [], polloutOn := (out_event raw_socket none).polloutOn }
    | p :: rest =>
      let r := out_event raw_socket (some p)
      { queueAfter := rest,
        sends := match r.sentData with | some d => [d] | none => [],
        polloutOn := r.polloutOn }
  else
    { queueAfter := drainQueue queue, sends := [], polloutOn := pollout }

/-- The `AF_INET` address family code. -/
def AF_INET : Nat := 2

/-- The `AF_INET6` address family code. -/
def AF_INET6 : Nat := 10

/-- A resolved socket address as the engine's `plug` sees it: family code,
raw address bytes (4 for IPv4, 16 for IPv6, network order), and port.  This
mirrors libzmq's `ip_addr_t` union at the granularity the bind logic uses. -/
structure ip_addr_t where
  family : Nat
  addrBytes : List Nat
  port : Nat
  deriving Repr, DecidableEq

/-- Embedding of `ip_addr_t::any`: the wildcard (`INADDR_ANY` /
`in6addr_any`) address of the given family, all address bytes zero, port 0. -/
def ip_addr_any (family : Nat) : ip_addr_t :=
  { family := family, addrBytes := List.replicate (if family = AF_INET6 then 16 else 4) 0,
    port := 0 }

/-- The bind-target computation of `udp_engine_t::plug` (lines 164-178): for
a multicast resolved address, bind the wildcard of the bind address's family
with the bind address's port; otherwise bind the resolved bind address
itself. -/
def real_bind_addr (bind_addr : ip_addr_t) (multicast : Bool) : ip_addr_t :=
  if multicast then { ip_addr_any bind_addr.family with port := bind_addr.port }
  else bind_addr

/-- Observable outcome of `udp_engine_t::plug`: the address handed to
`bind ()` (if receive is enabled), the session queue and send trace left by
the synchronous `restart_output` call, and the two interest flags. -/
structure PlugResult where
  bindTarget : Option ip_addr_t
  queueAfter : List (List Nat × List Nat)
  sends : List (List Nat)
  polloutOn : Bool
  pollinOn : Bool
  deriving Repr, DecidableEq

/-- Embedding of `udp_engine_t::plug` (lines 100-236) restricted to its
observable interactions: when send is enabled, write interest is set; when
receive is enabled, the socket is bound to `real_bind_addr`, read interest is
set, and `restart_output` runs once synchronously (the source comment: "Call
restart output to drop all join/leave commands").  Socket options and the
multicast membership request change no state visible to these claims and are
omitted. -/
def plug (send_enabled recv_enabled raw_socket multicast : Bool) (bind_addr : ip_addr_t)
    (queue : List (List Nat × List Nat)) : PlugResult :=
  let pollout0 := send_enabled
  if recv_enabled then
    let r := restart_output send_enabled raw_socket pollout0 queue
    { bindTarget := some (real_bind_addr bind_addr multicast), queueAfter := r.queueAfter,
      sends := r.sends, polloutOn := r.polloutOn, pollinOn := true }
  else
    { bindTarget := none, queueAfter := queue, sends := [], polloutOn := pollout0,
      pollinOn := false }

theorem bufSlice_length (buf : Nat → Nat) (off len : Nat) :
    (bufSlice buf off len).length = len := by
  simp [bufSlice]

theorem bufSlice_eq_of_getElem (l : List Nat) (buf : Nat → Nat) (off : Nat)
    (h : ∀ i, (hi : i < l.length) → buf (off + i) % 256 = l[i]) :
    bufSlice buf off l.length = l := by
  apply List.ext_getElem
  · exact bufSlice_length buf off l.length
  · intro i h1 h2
    simp only [bufSlice, List.getElem_map, List.getElem_range]
    exact h i h2

theorem encodeFramed_getD_group (group body : List Nat) (i : Nat) (hi : i < group.length)
    (hg : ∀ x ∈ group, x < 256) :
    (encodeFramed group body).getD (1 + i) 0 % 256 = group[i] := by
  have h1 : 1 + i = i + 1 := by omega
  rw [h1]
  rw [encodeFramed, List.getD_cons_succ]
  have h2 : i < (group ++ body).length := by simp; omega
  rw [List.getD_eq_getElem (group ++ body) 0 h2]
  rw [List.getElem_append_left hi]
  exact Nat.mod_eq_of_lt (hg group[i] (List.getElem_mem hi))

theorem encodeFramed_getD_body (group body : List Nat) (i : Nat) (hi : i < body.length)
    (hb : ∀ x ∈ body, x < 256) :
    (encodeFramed group body).getD (1 + group.length + i) 0 % 256 = body[i] := by
  have h1 : 1 + group.length + i = (group.length + i) + 1 := by omega
  rw [h1]
  rw [encodeFramed, List.getD_cons_succ]
  have h2 : group.length + i < (group ++ body).length := by simp; omega
  rw [List.getD_eq_getElem (group ++ body) 0 h2]
  have h3 : group.length ≤ group.length + i := by omega
  rw [List.getElem_append_right h3]
  have h4 : group.length + i - group.length = i := by omega
  simp only [h4]
  exact Nat.mod_eq_of_lt (hb body[i] (List.getElem_mem hi))

/-- C1.  Framing round-trip: for every group of at most 255 bytes and every
body such that the framed datagram `1 + len(group) + len(body)` fits in the
maximum datagram size, decoding the encoded wire form (the receive path of
`in_event` applied to the buffer `out_event` filled, with `nbytes` the encoded
length) yields back exactly the same group/body pair. -/
theorem framed_encode_decode_round_trip (group body : List Nat)
    (hglen : group.length ≤ 255)
    (hg : ∀ x ∈ group, x < 256) (hb : ∀ x ∈ body, x < 256)
    (hmax : 1 + group.length + body.length ≤ MAX_UDP_MSG) :
    decodeFramed (fun i => (encodeFramed group body).getD i 0)
      (encodeFramed group body).length = some (group, body) := by
  have hlen : (encodeFramed group body).length = group.length + body.length + 1 := by
    simp [encodeFramed]
  have hgsv : (encodeFramed group body).getD 0 0 % 256 = group.length := by
    have h1 : (encodeFramed group body).getD 0 0 = group.length % 256 := rfl
    rw [h1]
    omega
  simp only [decodeFramed]
  rw [hgsv, hlen]
  rw [if_neg (by push_cast; omega)]
  have hgrp : bufSlice (fun i => (encodeFramed group body).getD i 0) 1 group.length = group := by
    apply bufSlice_eq_of_getElem
    intro i hi
    exact encodeFramed_getD_group group body i hi hg
  have hlen2 : group.length + body.length + 1 - 1 - group.length = body.length := by omega
  rw [hlen2]
  have hbody : bufSlice (fun i => (encodeFramed group body).getD i 0) (1 + group.length)
      body.length = body := by
    apply bufSlice_eq_of_getElem
    intro i hi
    exact encodeFramed_getD_body group body i hi hb
  rw [hgrp, hbody]

/-- Witness for C1 at a concrete input: group `[65]`, body `[66, 67]`. -/
theorem framed_encode_decode_round_trip_witness :
    decodeFramed (fun i => (encodeFramed [65] [66, 67]).getD i 0)
      (encodeFramed [65] [66, 67]).length = some ([65], [66, 67]) :=
  framed_encode_decode_round_trip [65] [66, 67] (by decide)
    (by decide) (by decide) (by decide)

/-- C2.  Body-reject forces a reset: in framed or raw receive processing,
whenever the session accepts the group push but rejects the body push, the
engine discards the body (it is closed, not delivered), turns read interest
off, calls `session->reset ()` exactly once, and does not call
`session->flush ()` for that datagram.  The hypothesis states that the
datagram actually produced a message pair (in framed mode, that the envelope
was not truncated), so the pushes are reached. -/
theorem body_reject_forces_reset (raw_socket : Bool) (buf : Nat → Nat) (nbytes : Nat)
    (sender : (Nat × Nat × Nat × Nat) × Nat)
    (hp : (recvPair raw_socket buf nbytes sender).isSome = true) :
    (in_event raw_socket buf nbytes sender true false).resetCalls = 1 ∧
    (in_event raw_socket buf nbytes sender true false).flushCalls = 0 ∧
    (in_event raw_socket buf nbytes sender true false).pollinOn = false ∧
    (in_event raw_socket buf nbytes sender true false).deliveredBody = none ∧
    (in_event raw_socket buf nbytes sender true false).bodyPushAttempted = true := by
  rcases hcase : recvPair raw_socket buf nbytes sender with _ | ⟨g, b⟩
  · rw [hcase] at hp
    simp at hp
  · simp [in_event, hcase]

/-- Witness for C2: framed mode, one-byte datagram `[0]` (empty group, empty
body), session double accepting the group push and rejecting the body push. -/
theorem body_reject_forces_reset_witness :
    (in_event false (fun _ => 0) 1 ((0, 0, 0, 0), 0) true false).resetCalls = 1 ∧
    (in_event false (fun _ => 0) 1 ((0, 0, 0, 0), 0) true false).flushCalls = 0 ∧
    (in_event false (fun _ => 0) 1 ((0, 0, 0, 0), 0) true false).pollinOn = false ∧
    (in_event false (fun _ => 0) 1 ((0, 0, 0, 0), 0) true false).deliveredBody = none ∧
    (in_event false (fun _ => 0) 1 ((0, 0, 0, 0), 0) true false).bodyPushAttempted = true :=
  body_reject_forces_reset false (fun _ => 0) 1 ((0, 0, 0, 0), 0) (by decide)

/-- C3.  Group-reject is clean: whenever the session rejects the group push,
the engine discards the group message (nothing is delivered), turns read
interest off, and returns without attempting the body push, without calling
`session->reset ()` and without calling `session->flush ()` — whatever the
session double would have answered to a body push.  The hypothesis states
that the datagram produced a message pair, so the group push is reached. -/
theorem group_reject_clean (raw_socket : Bool) (buf : Nat → Nat) (nbytes : Nat)
    (sender : (Nat × Nat × Nat × Nat) × Nat) (acceptBody : Bool)
    (hp : (recvPair raw_socket buf nbytes sender).isSome = true) :
    (in_event raw_socket buf nbytes sender false acceptBody).bodyPushAttempted = false ∧
    (in_event raw_socket buf nbytes sender false acceptBody).resetCalls = 0 ∧
    (in_event raw_socket buf nbytes sender false acceptBody).flushCalls = 0 ∧
    (in_event raw_socket buf nbytes sender false acceptBody).pollinOn = false ∧
    (in_event raw_socket buf nbytes sender false acceptBody).deliveredGroup = none := by
  rcases hcase : recvPair raw_socket buf nbytes sender with _ | ⟨g, b⟩
  · rw [hcase] at hp
    simp at hp
  · simp [in_event, hcase]

/-- Witness for C3: framed mode, one-byte datagram `[0]`, session double
rejecting the group push. -/
theorem group_reject_clean_witness :
    (in_event false (fun _ => 0) 1 ((0, 0, 0, 0), 0) false true).bodyPushAttempted = false ∧
    (in_event false (fun _ => 0) 1 ((0, 0, 0, 0), 0) false true).resetCalls = 0 ∧
    (in_event false (fun _ => 0) 1 ((0, 0, 0, 0), 0) false true).flushCalls = 0 ∧
    (in_event false (fun _ => 0) 1 ((0, 0, 0, 0), 0) false true).pollinOn = false ∧
    (in_event false (fun _ => 0) 1 ((0, 0, 0, 0), 0) false true).deliveredGroup = none :=
  group_reject_clean false (fun _ => 0) 1 ((0, 0, 0, 0), 0) true (by decide)

/-- C4.  Truncated envelope drop: in framed mode, a datagram whose total
length is shorter than 1 plus the group length declared in its first byte is
discarded with nothing delivered — no group push, no body push, no flush and
no reset, whatever the session double would answer. -/
theorem truncated_envelope_drop (buf : Nat → Nat) (nbytes : Nat)
    (sender : (Nat × Nat × Nat × Nat) × Nat) (acceptGroup acceptBody : Bool)
    (ht : nbytes < 1 + buf 0 % 256) :
    (in_event false buf nbytes sender acceptGroup acceptBody).groupPushAttempted = false ∧
    (in_event false buf nbytes sender acceptGroup acceptBody).bodyPushAttempted = false ∧
    (in_event false buf nbytes sender acceptGroup acceptBody).flushCalls = 0 ∧
    (in_event false buf nbytes sender acceptGroup acceptBody).resetCalls = 0 ∧
    (in_event false buf nbytes sender acceptGroup acceptBody).deliveredGroup = none ∧
    (in_event false buf nbytes sender acceptGroup acceptBody).deliveredBody = none := by
  have hdec : decodeFramed buf nbytes = none := by
    have hc : (nbytes : Int) - 1 < ((buf 0 % 256 : Nat) : Int) := by omega
    simp only [decodeFramed]
    rw [if_pos hc]
  have hrp : recvPair false buf nbytes sender = none := by
    simp [recvPair, hdec]
  simp [in_event, hrp]

/-- Witness for C4: a 3-byte datagram whose first byte declares a group of 5
bytes. -/
theorem truncated_envelope_drop_witness :
    (in_event false (fun _ => 5) 3 ((0, 0, 0, 0), 0) true true).groupPushAttempted = false ∧
    (in_event false (fun _ => 5) 3 ((0, 0, 0, 0), 0) true true).bodyPushAttempted = false ∧
    (in_event false (fun _ => 5) 3 ((0, 0, 0, 0), 0) true true).flushCalls = 0 ∧
    (in_event false (fun _ => 5) 3 ((0, 0, 0, 0), 0) true true).resetCalls = 0 ∧
    (in_event false (fun _ => 5) 3 ((0, 0, 0, 0), 0) true true).deliveredGroup = none ∧
    (in_event false (fun _ => 5) 3 ((0, 0, 0, 0), 0) true true).deliveredBody = none :=
  truncated_envelope_drop (fun _ => 5) 3 ((0, 0, 0, 0), 0) true true (by decide)

/-- C9.  Zero-length framed datagram is dropped: whatever stale byte the
receive buffer holds at index 0, the C guard `nbytes - 1 < group_size`
(computed over `int`, so `-1 < group_size` here) always fires for a 0-byte
datagram, and nothing is pushed to the session. -/
theorem zero_length_framed_drop (buf : Nat → Nat) (sender : (Nat × Nat × Nat × Nat) × Nat)
    (acceptGroup acceptBody : Bool) :
    decodeFramed buf 0 = none ∧
    (in_event false buf 0 sender acceptGroup acceptBody).groupPushAttempted = false ∧
    (in_event false buf 0 sender acceptGroup acceptBody).bodyPushAttempted = false ∧
    (in_event false buf 0 sender acceptGroup acceptBody).flushCalls = 0 ∧
    (in_event false buf 0 sender acceptGroup acceptBody).resetCalls = 0 := by
  have hdec : decodeFramed buf 0 = none := by
    have hc : ((0 : Nat) : Int) - 1 < ((buf 0 % 256 : Nat) : Int) := by omega
    simp only [decodeFramed]
    rw [if_pos hc]
  have hrp : recvPair false buf 0 sender = none := by
    simp [recvPair, hdec]
  refine ⟨hdec, ?_⟩
  simp [in_event, hrp]

theorem take_append_len (l1 l2 : List Nat) : (l1 ++ l2).take l1.length = l1 := by
  induction l1 with
  | nil => simp
  | cons b rest ih => simp [ih]

theorem drop_append_len (l1 l2 : List Nat) : (l1 ++ l2).drop l1.length = l2 := by
  induction l1 with
  | nil => simp
  | cons b rest ih => simp [ih]

theorem findLastColon_none (l : List Nat) (h : ∀ x ∈ l, x ≠ 58) :
    findLastColon l = none := by
  induction l with
  | nil => rfl
  | cons b rest ih =>
    rw [findLastColon]
    rw [ih (fun x hx => h x (List.mem_cons_of_mem b hx))]
    rw [if_neg (h b (List.mem_cons_self b rest))]

theorem findLastColon_append (l1 l2 : List Nat) (h : ∀ x ∈ l2, x ≠ 58) :
    findLastColon (l1 ++ 58 :: l2) = some l1.length := by
  induction l1 with
  | nil =>
    rw [List.nil_append, findLastColon]
    rw [findLastColon_none l2 h]
    simp
  | cons b rest ih =>
    rw [List.cons_append, findLastColon, ih]
    simp

theorem splitDots_no_dot (l : List Nat) (h : ∀ x ∈ l, x ≠ 46) :
    splitDots l = [l] := by
  induction l with
  | nil => rfl
  | cons b rest ih =>
    rw [splitDots]
    rw [if_neg (h b (List.mem_cons_self b rest))]
    rw [ih (fun x hx => h x (List.mem_cons_of_mem b hx))]

theorem splitDots_append (l1 l2 : List Nat) (h : ∀ x ∈ l1, x ≠ 46) :
    splitDots (l1 ++ 46 :: l2) = l1 :: splitDots l2 := by
  induction l1 with
  | nil =>
    rw [List.nil_append, splitDots]
    simp
  | cons b rest ih =>
    rw [List.cons_append, splitDots]
    rw [if_neg (h b (List.mem_cons_self b rest))]
    rw [ih (fun x hx => h x (List.mem_cons_of_mem b hx))]

theorem parseCNum_natToDigits (n : Nat) : parseCNum (natToDigits n) = some n := by
  rcases Nat.eq_zero_or_pos n with h0 | h1
  · subst h0
    decide
  · obtain ⟨h, t, heq, hl, hr⟩ := natToDigitsAux_head (n + 1) n (Nat.lt_succ_self n) h1
    have heq2 : natToDigits n = h :: t := heq
    rcases t with _ | ⟨b2, r2⟩
    · rw [heq2]
      show (if h = 48 then some 0 else parseDigitsAcc 10 0 [h]) = some n
      rw [if_neg (by omega)]
      rw [← heq2]
      exact parseDigitsAcc_natToDigits n
    · rw [heq2]
      show (if h = 48 then
          (if b2 = 120 ∨ b2 = 88 then
            (if r2 = [] then none else parseDigitsAcc 16 0 r2)
          else parseDigitsAcc 8 0 (b2 :: r2))
        else parseDigitsAcc 10 0 (h :: b2 :: r2)) = some n
      rw [if_neg (by omega)]
      rw [← heq2]
      exact parseDigitsAcc_natToDigits n

theorem atoiModel_natToDigits (n : Nat) : atoiModel (natToDigits n) = Int.ofNat n := by
  obtain ⟨h, t, heq, hl, hr⟩ : ∃ h t, natToDigits n = h :: t ∧ 48 ≤ h ∧ h ≤ 57 := by
    rcases Nat.eq_zero_or_pos n with h0 | h1
    · subst h0; exact ⟨48, [], rfl, by omega, by omega⟩
    · obtain ⟨h, t, heq, hl, hr⟩ := natToDigitsAux_head (n + 1) n (Nat.lt_succ_self n) h1
      exact ⟨h, t, heq, by omega, by omega⟩
  have hmem := natToDigits_mem n
  rw [heq] at hmem
  rw [heq, atoiModel]
  rw [dropWhile_eq_self_of_head isSpaceByte h t (by simp [isSpaceByte]; omega)]
  show (if h = 45 then -Int.ofNat (digitsValAcc 0 (List.takeWhile isDigitByte t))
    else if h = 43 then Int.ofNat (digitsValAcc 0 (List.takeWhile isDigitByte t))
    else Int.ofNat (digitsValAcc 0 (List.takeWhile isDigitByte (h :: t)))) = Int.ofNat n
  rw [if_neg (by omega), if_neg (by omega)]
  rw [takeWhile_eq_self_of_all isDigitByte (h :: t)
    (fun x hx => by simp [isDigitByte]; have := hmem x hx; omega)]
  rw [← heq, digitsValAcc_natToDigits]

/-- The dotted-quad host part of the text `sockaddr_to_msg` renders. -/
def dottedQuadText (a b c d : Nat) : List Nat :=
  natToDigits a ++ (46 :: (natToDigits b ++ (46 :: (natToDigits c ++ (46 :: natToDigits d)))))

theorem dottedQuadText_mem (a b c d : Nat) :
    ∀ x ∈ dottedQuadText a b c d, (48 ≤ x ∧ x ≤ 57) ∨ x = 46 := by
  intro x hx
  simp only [dottedQuadText, List.mem_append, List.mem_cons] at hx
  rcases hx with hx | hx | hx | hx | hx | hx | hx
  · exact Or.inl (natToDigits_mem a x hx)
  · exact Or.inr hx
  · exact Or.inl (natToDigits_mem b x hx)
  · exact Or.inr hx
  · exact Or.inl (natToDigits_mem c x hx)
  · exact Or.inr hx
  · exact Or.inl (natToDigits_mem d x hx)

theorem sockaddr_to_msg_split (a b c d p : Nat) :
    sockaddr_to_msg a b c d p = dottedQuadText a b c d ++ 58 :: natToDigits p := by
  simp [sockaddr_to_msg, dottedQuadText]

theorem inet_addr_model_quad (a b c d : Nat)
    (ha : a < 256) (hb : b < 256) (hc : c < 256) (hd : d < 256) :
    inet_addr_model (dottedQuadText a b c d) = a * 16777216 + b * 65536 + c * 256 + d := by
  have hnd : ∀ m : Nat, ∀ x ∈ natToDigits m, x ≠ 46 := by
    intro m x hx
    have := natToDigits_mem m x hx
    omega
  have hsplit : splitDots (dottedQuadText a b c d)
      = [natToDigits a, natToDigits b, natToDigits c, natToDigits d] := by
    rw [dottedQuadText]
    rw [splitDots_append _ _ (hnd a)]
    rw [splitDots_append _ _ (hnd b)]
    rw [splitDots_append _ _ (hnd c)]
    rw [splitDots_no_dot _ (hnd d)]
  have hp : parseParts [natToDigits a, natToDigits b, natToDigits c, natToDigits d]
      = some [a, b, c, d] := by
    simp [parseParts, parseCNum_natToDigits]
  rw [inet_addr_model, hsplit, hp]
  show (if a < 256 ∧ b < 256 ∧ c < 256 ∧ d < 256
      then a * 16777216 + b * 65536 + c * 256 + d else 4294967295)
    = a * 16777216 + b * 65536 + c * 256 + d
  rw [if_pos ⟨ha, hb, hc, hd⟩]

theorem drop_len_succ_append (l1 l2 : List Nat) (x : Nat) :
    (l1 ++ x :: l2).drop (l1.length + 1) = l2 := by
  have h : l1 ++ x :: l2 = (l1 ++ [x]) ++ l2 := by simp
  have h2 : l1.length + 1 = (l1 ++ [x]).length := by simp
  rw [h, h2, drop_append_len]

theorem resolve_raw_address_some (name : List Nat) (i : Nat)
    (hf : findLastColon name = some i) :
    resolve_raw_address name =
      (if ((atoiModel (name.drop (i + 1))).emod 65536).toNat = 0 then none
       else if inet_addr_model (name.take i) = 4294967295 then none
       else some ((inet_addr_model (name.take i) / 16777216 % 256,
                   inet_addr_model (name.take i) / 65536 % 256,
                   inet_addr_model (name.take i) / 256 % 256,
                   inet_addr_model (name.take i) % 256),
                  ((atoiModel (name.drop (i + 1))).emod 65536).toNat)) := by
  rw [resolve_raw_address, hf]

theorem resolve_format_round_trip (a b c d p : Nat)
    (ha : a < 256) (hb : b < 256) (hc : c < 256) (hd : d < 256)
    (hp1 : 1 ≤ p) (hp2 : p ≤ 65535)
    (hbcast : ¬(a = 255 ∧ b = 255 ∧ c = 255 ∧ d = 255)) :
    resolve_raw_address (sockaddr_to_msg a b c d p) = some ((a, b, c, d), p) := by
  have hdig : ∀ x ∈ natToDigits p, x ≠ 58 := by
    intro x hx
    have := natToDigits_mem p x hx
    omega
  rw [sockaddr_to_msg_split]
  have hfind := findLastColon_append (dottedQuadText a b c d) (natToDigits p) hdig
  rw [resolve_raw_address_some _ _ hfind]
  rw [drop_len_succ_append, take_append_len]
  rw [atoiModel_natToDigits]
  rw [inet_addr_model_quad a b c d ha hb hc hd]
  have hpv : ((Int.ofNat p).emod 65536).toNat = p := by
    have h2 : (Int.ofNat p).emod 65536 = ((p % 65536 : Nat) : Int) := by
      norm_cast
    rw [h2]
    have h3 : p % 65536 = p := by omega
    rw [h3]
    rfl
  rw [hpv]
  rw [if_neg (by omega)]
  rw [if_neg (show ¬(a * 16777216 + b * 65536 + c * 256 + d = 4294967295) by omega)]
  have h1 : (a * 16777216 + b * 65536 + c * 256 + d) / 16777216 % 256 = a := by omega
  have h2 : (a * 16777216 + b * 65536 + c * 256 + d) / 65536 % 256 = b := by omega
  have h3 : (a * 16777216 + b * 65536 + c * 256 + d) / 256 % 256 = c := by omega
  have h4 : (a * 16777216 + b * 65536 + c * 256 + d) % 256 = d := by omega
  rw [h1, h2, h3, h4]

theorem resolve_raw_address_no_colon (s : List Nat) (h : ∀ x ∈ s, x ≠ 58) :
    resolve_raw_address s = none := by
  rw [resolve_raw_address, findLastColon_none s h]

theorem resolve_raw_address_port_zero (s : List Nat) (i : Nat)
    (hf : findLastColon s = some i)
    (hp : ((atoiModel (s.drop (i + 1))).emod 65536).toNat = 0) :
    resolve_raw_address s = none := by
  rw [resolve_raw_address_some s i hf, if_pos hp]

theorem resolve_raw_address_bad_host (s : List Nat) (i : Nat)
    (hf : findLastColon s = some i)
    (hh : inet_addr_model (s.take i) = 4294967295) :
    resolve_raw_address s = none := by
  rw [resolve_raw_address_some s i hf]
  by_cases hp : ((atoiModel (s.drop (i + 1))).emod 65536).toNat = 0
  · rw [if_pos hp]
  · rw [if_neg hp, if_pos hh]

/-- C5 counterexample.  The claim's round-trip fails at the representable
IPv4 address 255.255.255.255 (with port 80): `inet_addr` returns
`INADDR_NONE` for its own dotted form, so `resolve_raw_address` rejects the
text `sockaddr_to_msg` produced instead of returning the address back. -/
theorem raw_codec_round_trip_bcast_cex :
    resolve_raw_address (sockaddr_to_msg 255 255 255 255 80) = none := by decide

/-- C5 (amended).  Raw address codec round-trip and rejection: parsing the
formatted `A.B.C.D:port` text yields back the same address and port for
every representable IPv4 address except 255.255.255.255 (whose dotted text
`inet_addr` conflates with its `INADDR_NONE` error value) and every port
1-65535; parsing fails for any string containing no colon, whenever the port
substring parses (as `uint16_t`) to 0, and whenever the host substring is not
accepted by `inet_addr`. -/
theorem raw_codec_round_trip_amended :
    (∀ a b c d p : Nat, a < 256 → b < 256 → c < 256 → d < 256 → 1 ≤ p → p ≤ 65535 →
      ¬(a = 255 ∧ b = 255 ∧ c = 255 ∧ d = 255) →
      resolve_raw_address (sockaddr_to_msg a b c d p) = some ((a, b, c, d), p)) ∧
    (∀ s, (∀ x ∈ s, x ≠ 58) → resolve_raw_address s = none) ∧
    (∀ s i, findLastColon s = some i →
      ((atoiModel (s.drop (i + 1))).emod 65536).toNat = 0 → resolve_raw_address s = none) ∧
    (∀ s i, findLastColon s = some i →
      inet_addr_model (s.take i) = 4294967295 → resolve_raw_address s = none) :=
  ⟨resolve_format_round_trip, resolve_raw_address_no_colon,
    resolve_raw_address_port_zero, resolve_raw_address_bad_host⟩

/-- Witness for the amended C5: the round-trip at 192.168.0.1:5555. -/
theorem raw_codec_round_trip_amended_witness :
    resolve_raw_address (sockaddr_to_msg 192 168 0 1 5555) = some ((192, 168, 0, 1), 5555) :=
  raw_codec_round_trip_amended.1 192 168 0 1 5555 (by decide) (by decide) (by decide)
    (by decide) (by decide) (by decide) (by decide)

/-- C10.  Raw port parsing wraps modulo 2^16: for a well-formed host and a
decimal port numeral `n` (within the C `int` range `atoi` is defined on),
parsing succeeds exactly when `n % 65536` is nonzero and yields port
`n % 65536`. -/
theorem raw_port_wraps_mod_65536 (n : Nat) (hint : n < 2147483648) :
    resolve_raw_address ([49, 46, 50, 46, 51, 46, 52] ++ 58 :: natToDigits n) =
      if n % 65536 = 0 then none else some ((1, 2, 3, 4), n % 65536) := by
  have hdig : ∀ x ∈ natToDigits n, x ≠ 58 := by
    intro x hx
    have := natToDigits_mem n x hx
    omega
  have hfind := findLastColon_append [49, 46, 50, 46, 51, 46, 52] (natToDigits n) hdig
  rw [resolve_raw_address_some _ _ hfind]
  rw [drop_len_succ_append, take_append_len]
  rw [atoiModel_natToDigits]
  have hpv : ((Int.ofNat n).emod 65536).toNat = n % 65536 := by
    have h2 : (Int.ofNat n).emod 65536 = ((n % 65536 : Nat) : Int) := by
      norm_cast
    rw [h2]
    rfl
  rw [hpv]
  have hhost : inet_addr_model [49, 46, 50, 46, 51, 46, 52] = 16909060 := by decide
  rw [hhost]
  by_cases h0 : n % 65536 = 0
  · rw [if_pos h0, if_pos h0]
  · rw [if_neg h0, if_neg h0, if_neg (show ¬(16909060 = 4294967295) by decide)]

/-- Witness for C10: the port text 65537 parses to port 1 (65537 mod 2^16). -/
theorem raw_port_wraps_mod_65536_witness :
    resolve_raw_address ([49, 46, 50, 46, 51, 46, 52] ++ 58 :: natToDigits 65537) =
      if 65537 % 65536 = 0 then none else some ((1, 2, 3, 4), 65537 % 65536) :=
  raw_port_wraps_mod_65536 65537 (by decide)

theorem drainQueue_eq_nil (queue : List (List Nat × List Nat)) : drainQueue queue = [] := by
  induction queue with
  | nil => rfl
  | cons p rest ih => exact ih

/-- C6.  Send-disabled drain: with the send direction disabled, every
invocation of `restart_output` pulls and discards every message the session's
queue offers until it is empty and performs no socket send — including the
invocation `plug` performs synchronously at attach time when receive is
enabled. -/
theorem send_disabled_drains (raw_socket pollout multicast : Bool) (bind_addr : ip_addr_t)
    (queue : List (List Nat × List Nat)) :
    (restart_output false raw_socket pollout queue).queueAfter = [] ∧
    (restart_output false raw_socket pollout queue).sends = [] ∧
    (plug false true raw_socket multicast bind_addr queue).queueAfter = [] ∧
    (plug false true raw_socket multicast bind_addr queue).sends = [] := by
  simp [plug, restart_output, drainQueue_eq_nil]

/-- C7.  Raw-mode send discards on bad address: when the pulled group segment
fails to parse as a `host:port` raw endpoint, `out_event` closes both the
group and the body message and returns — no datagram is sent, no destination
is resolved, and write interest stays on (and the function has no error
channel to surface anything through). -/
theorem raw_send_discard_bad_address (group_msg body_msg : List Nat)
    (hbad : resolve_raw_address group_msg = none) :
    (out_event true (some (group_msg, body_msg))).sentData = none ∧
    (out_event true (some (group_msg, body_msg))).sentRawDest = none ∧
    (out_event true (some (group_msg, body_msg))).polloutOn = true ∧
    (out_event true (some (group_msg, body_msg))).groupClosed = true ∧
    (out_event true (some (group_msg, body_msg))).bodyClosed = true := by
  simp [out_event, hbad]

/-- Witness for C7: the group text `foo` (bytes 102, 111, 111) has no colon
and fails to resolve. -/
theorem raw_send_discard_bad_address_witness :
    (out_event true (some ([102, 111, 111], []))).sentData = none ∧
    (out_event true (some ([102, 111, 111], []))).sentRawDest = none ∧
    (out_event true (some ([102, 111, 111], []))).polloutOn = true ∧
    (out_event true (some ([102, 111, 111], []))).groupClosed = true ∧
    (out_event true (some ([102, 111, 111], []))).bodyClosed = true :=
  raw_send_discard_bad_address [102, 111, 111] [] (by decide)

/-- C8.  Multicast bind targets the wildcard: with receive enabled, a
multicast resolved address makes `plug` bind the wildcard (ANY) address of
the bind address's family carrying the bind address's configured port — not
the multicast group address — while a non-multicast address makes it bind the
resolved bind address itself. -/
theorem multicast_bind_wildcard (send_enabled raw_socket multicast : Bool)
    (bind_addr : ip_addr_t) (queue : List (List Nat × List Nat)) :
    (multicast = true →
      (plug send_enabled true raw_socket multicast bind_addr queue).bindTarget =
        some { family := bind_addr.family,
               addrBytes := List.replicate (if bind_addr.family = AF_INET6 then 16 else 4) 0,
               port := bind_addr.port }) ∧
    (multicast = false →
      (plug send_enabled true raw_socket multicast bind_addr queue).bindTarget =
        some bind_addr) := by
  constructor <;> intro h <;> subst h <;> simp [plug, real_bind_addr, ip_addr_any]

/-- Witness for C8: binding for the multicast group 239.0.0.1 on port 7777
targets 0.0.0.0:7777. -/
theorem multicast_bind_wildcard_witness :
    (plug true true false true ⟨AF_INET, [239, 0, 0, 1], 7777⟩ []).bindTarget =
      some ⟨AF_INET, [0, 0, 0, 0], 7777⟩ := by
  have h := (multicast_bind_wildcard true false true ⟨AF_INET, [239, 0, 0, 1], 7777⟩ []).1 rfl
  simpa [AF_INET, AF_INET6, List.replicate] using h
